import Mathlib

/-!
Verification of the in-memory task-tracking service in `src/main.py`.

The service keeps a mapping from task id to task record (`tasks_db`, a
Python dict, which preserves insertion order and keeps the position of a
key when its value is overwritten).  We embed the store as a `List Task`
in insertion order.  Identifiers (`uuid4`) and timestamps
(`datetime.now`) are modelled as natural numbers passed in explicitly:
the id and the current time are inputs of the operations that generate
them.  Validation performed by pydantic/FastAPI before a handler runs
(field lengths, the status enum, query-parameter bounds) is embedded as
explicit `validate*` functions run before the handler body, exactly as
the framework does.  A request field that may be absent is an `Option`;
a supplied field is modelled as a present value of the target type.
-/

namespace TaskApi

/-- `class TaskStatus(str, Enum)` with values pending, in_progress, completed. -/
inductive TaskStatus where
  | pending
  | inProgress
  | completed
deriving DecidableEq, Repr

/-- Parsing a raw status string into the `TaskStatus` enum, as pydantic does
when validating a request carrying a status field. -/
def parseTaskStatus : String → Option TaskStatus
  | "pending" => some .pending
  | "in_progress" => some .inProgress
  | "completed" => some .completed
  | _ => none

/-- `class Task(TaskBase)`: id, title, description, status, created_at, updated_at. -/
structure Task where
  id : Nat
  title : String
  description : Option String
  status : TaskStatus
  created_at : Nat
  updated_at : Nat
deriving DecidableEq, Repr

/-- `title: str = Field(..., min_length=1, max_length=200)`. -/
def validTitle (s : String) : Bool :=
  1 ≤ s.length && s.length ≤ 200

/-- `description: Optional[str] = Field(None, max_length=1000)`. -/
def validDescription : Option String → Bool
  | none => true
  | some s => s.length ≤ 1000

/-- The two error kinds of the service: 422 validation errors raised by the
framework before the handler body, and the 404 `HTTPException` raised by the
handlers for a missing task id. -/
inductive ApiError where
  | validation
  | notFound (id : Nat)
deriving DecidableEq, Repr

/-- A raw `POST /tasks` body before validation: title required, the other
fields optional (status still a raw string). -/
structure CreateTaskRaw where
  title : String
  description : Option String
  status : Option String
deriving DecidableEq, Repr

/-- `class CreateTask(TaskBase)` after pydantic validation: the status field
has its default `pending` applied. -/
structure CreateTask where
  title : String
  description : Option String
  status : TaskStatus
deriving DecidableEq, Repr

/-- Pydantic validation of a `POST /tasks` body against `CreateTask`:
title length in [1,200], description length at most 1000, status one of the
three enum values, defaulting to `pending` when absent. -/
def validateCreate (raw : CreateTaskRaw) : Except ApiError CreateTask :=
  if validTitle raw.title && validDescription raw.description then
    match raw.status with
    | none => .ok ⟨raw.title, raw.description, .pending⟩
    | some s =>
      match parseTaskStatus s with
      | some st => .ok ⟨raw.title, raw.description, st⟩
      | none => .error .validation
  else
    .error .validation

/-- A raw `PUT /tasks/{id}` body before validation; `none` means the field
was not supplied (`model_dump(exclude_unset=True)` drops it). -/
structure UpdateTaskRaw where
  title : Option String
  description : Option String
  status : Option String
deriving DecidableEq, Repr

/-- `class UpdateTask(BaseModel)` after pydantic validation: every field
optional, a supplied status parsed into the enum. -/
structure UpdateTask where
  title : Option String
  description : Option String
  status : Option TaskStatus
deriving DecidableEq, Repr

/-- Pydantic validation of a `PUT /tasks/{id}` body against `UpdateTask`:
each constraint applies only to a supplied field. -/
def validateUpdate (raw : UpdateTaskRaw) : Except ApiError UpdateTask :=
  if (match raw.title with | none => true | some s => validTitle s) &&
      validDescription raw.description then
    match raw.status with
    | none => .ok ⟨raw.title, raw.description, none⟩
    | some s =>
      match parseTaskStatus s with
      | some st => .ok ⟨raw.title, raw.description, some st⟩
      | none => .error .validation
  else
    .error .validation

/-- Whether an optional raw status field parses: absent, or one of the three
enum values. -/
def statusOk : Option String → Bool
  | none => true
  | some s => (parseTaskStatus s).isSome

/-- The ids present in the store, in insertion order. -/
def idsOf (db : List Task) : List Nat :=
  db.map (·.id)

/-- `tasks_db[new_task.id] = new_task`: Python dict assignment replaces in
place when the key exists (keeping its position) and appends otherwise. -/
def dictInsert (db : List Task) (t : Task) : List Task :=
  if (idsOf db).contains t.id then
    db.map (fun u => if u.id == t.id then t else u)
  else
    db ++ [t]

/-- `create_task` handler body: build a `Task` from the validated body with a
generated id and both timestamps set to now, insert it, return it. -/
def create_task (db : List Task) (id now : Nat) (c : CreateTask) :
    Task × List Task :=
  let t : Task := ⟨id, c.title, c.description, c.status, now, now⟩
  (t, dictInsert db t)

/-- `get_task` handler: 404 if the id is absent, else the stored record. -/
def get_task (db : List Task) (id : Nat) : Except ApiError Task :=
  match db.find? (fun t => t.id == id) with
  | some t => .ok t
  | none => .error (.notFound id)

/-- The `for field, value in update_data.items(): setattr(...)` loop followed
by `stored_task.updated_at = datetime.now()`: overwrite exactly the supplied
fields and refresh `updated_at`. -/
def applyPatch (t : Task) (p : UpdateTask) (now : Nat) : Task :=
  { t with
    title := p.title.getD t.title
    description := match p.description with
      | some d => some d
      | none => t.description
    status := p.status.getD t.status
    updated_at := now }

/-- `update_task` handler body: 404 if the id is absent, else mutate the
stored record in place (its position in the dict is unchanged). -/
def update_task (db : List Task) (id : Nat) (p : UpdateTask) (now : Nat) :
    Except ApiError (Task × List Task) :=
  match db.find? (fun t => t.id == id) with
  | none => .error (.notFound id)
  | some t =>
    let t2 := applyPatch t p now
    .ok (t2, db.map (fun u => if u.id == id then t2 else u))

/-- `delete_task` handler body: 404 if the id is absent, else remove it. -/
def delete_task (db : List Task) (id : Nat) : Except ApiError (List Task) :=
  if (idsOf db).contains id then
    .ok (db.filter (fun t => !(t.id == id)))
  else
    .error (.notFound id)

/-- One step of Python's stable sort, specialised to
`sort(key=lambda x: x.created_at, reverse=True)`: insert `t` after every
element created strictly later and before the first element created no later,
so equal timestamps keep their original relative order. -/
def insertDesc (t : Task) : List Task → List Task
  | [] => [t]
  | u :: us =>
    if u.created_at ≤ t.created_at then t :: u :: us
    else u :: insertDesc t us

/-- `all_tasks.sort(key=lambda x: x.created_at, reverse=True)`: a stable sort
by `created_at` descending. -/
def sortByCreatedDesc (l : List Task) : List Task :=
  l.foldr insertDesc []

/-- The `if status: all_tasks = [task for task in all_tasks if task.status == status]`
step of `list_tasks`: for a present status, keep exactly the tasks with that
status (every enum value is truthy in Python, `None` is not). -/
def filteredTasks (db : List Task) (status : Option TaskStatus) : List Task :=
  match status with
  | some s => db.filter (fun t => t.status == s)
  | none => db

/-- `list_tasks` handler body: optional exact status filter, stable sort by
`created_at` descending, then the Python slice `[offset : offset + limit]`. -/
def list_tasks (db : List Task) (status : Option TaskStatus)
    (limit offset : Nat) : List Task :=
  ((sortByCreatedDesc (filteredTasks db status)).drop offset).take limit

/-- `limit: int = Query(10, ge=1, le=100)` and `offset: int = Query(0, ge=0)`:
the bounds FastAPI checks on the query parameters. -/
def validListParams (limit offset : Int) : Bool :=
  1 ≤ limit && limit ≤ 100 && 0 ≤ offset

/-- The `POST /tasks` endpoint: framework validation, then the handler.
Returns the response together with the store after the call. -/
def createEndpoint (db : List Task) (id now : Nat) (raw : CreateTaskRaw) :
    Except ApiError Task × List Task :=
  match validateCreate raw with
  | .error e => (.error e, db)
  | .ok c =>
    let r := create_task db id now c
    (.ok r.1, r.2)

/-- The `PUT /tasks/{id}` endpoint: framework validation of the body, then
the handler.  Returns the response together with the store after the call. -/
def updateEndpoint (db : List Task) (id : Nat) (raw : UpdateTaskRaw)
    (now : Nat) : Except ApiError Task × List Task :=
  match validateUpdate raw with
  | .error e => (.error e, db)
  | .ok p =>
    match update_task db id p now with
    | .error e => (.error e, db)
    | .ok r => (.ok r.1, r.2)

/-- The `DELETE /tasks/{id}` endpoint: 204 with no content on success.
Returns the response together with the store after the call. -/
def deleteEndpoint (db : List Task) (id : Nat) :
    Except ApiError Unit × List Task :=
  match delete_task db id with
  | .error e => (.error e, db)
  | .ok db2 => (.ok (), db2)

/-- The `GET /tasks` endpoint: query-parameter validation with the declared
defaults (`limit` 10, `offset` 0), then the handler.  `none` is an omitted
parameter.  Returns the response together with the (unchanged) store. -/
def listEndpoint (db : List Task) (status : Option TaskStatus)
    (limit offset : Option Int) : Except ApiError (List Task) × List Task :=
  let l := limit.getD 10
  let o := offset.getD 0
  if validListParams l o then
    (.ok (list_tasks db status l.toNat o.toNat), db)
  else
    (.error .validation, db)

/-- The JSON shape returned by `GET /tasks/stats/summary`: a total, a
`by_status` mapping rendered as its list of entries, and the optional
`message` key. -/
structure StatsResponse where
  total : Nat
  by_status : List (TaskStatus × Nat)
  message : Option String
deriving DecidableEq, Repr

/-- The counting loop of `get_stats`: one pass over the store incrementing
the bucket of each task's status, starting from the three zero buckets. -/
def statusCounts (db : List Task) (acc : Nat × Nat × Nat) : Nat × Nat × Nat :=
  match db with
  | [] => acc
  | t :: ts =>
    statusCounts ts
      (match t.status with
       | .pending => (acc.1 + 1, acc.2.1, acc.2.2)
       | .inProgress => (acc.1, acc.2.1 + 1, acc.2.2)
       | .completed => (acc.1, acc.2.1, acc.2.2 + 1))

/-- `get_stats` handler body: on an empty store, total 0 with an empty
`by_status` dict and the "No tasks yet" message; otherwise the total and the
per-status counts (all three statuses present, zeros included). -/
def get_stats (db : List Task) : StatsResponse :=
  if db.length = 0 then
    ⟨0, [], some "No tasks yet"⟩
  else
    let c := statusCounts db (0, 0, 0)
    ⟨db.length, [(.pending, c.1), (.inProgress, c.2.1), (.completed, c.2.2)],
      none⟩

/-- The number of stored tasks whose status is exactly `s`. -/
def countStatus (db : List Task) (s : TaskStatus) : Nat :=
  (db.filter (fun t => t.status == s)).length

/-- Whether a validated create body satisfies the field constraints (always
true for the output of `validateCreate`). -/
def validCreateBody (c : CreateTask) : Bool :=
  validTitle c.title && validDescription c.description

/-- Whether a validated patch satisfies the field constraints on every
supplied field (always true for the output of `validateUpdate`). -/
def validPatch (p : UpdateTask) : Bool :=
  (match p.title with | none => true | some s => validTitle s) &&
    (match p.description with | none => true | some d => validDescription (some d))

/-- A mutating operation of the service, carrying the generated id and the
clock reading `datetime.now` would return during the call. -/
inductive Op where
  | create (id now : Nat) (c : CreateTask)
  | update (id now : Nat) (p : UpdateTask)
  | delete (id : Nat)

/-- The effect of one mutating operation on the store; a failing operation
(missing id) leaves the store unchanged. -/
def applyOp (db : List Task) : Op → List Task
  | .create id now c => (create_task db id now c).2
  | .update id now p =>
    match update_task db id p now with
    | .ok r => r.2
    | .error _ => db
  | .delete id =>
    match delete_task db id with
    | .ok db2 => db2
    | .error _ => db

/-- The clock after an operation: deletes read no clock. -/
def opClock (clk : Nat) : Op → Nat
  | .create _ now _ => now
  | .update _ now _ => now
  | .delete _ => clk

/-- An operation the running service can actually perform when the store is
`db` and the clock last read `clk`: its inputs passed validation, its clock
reading is no earlier than the previous one (`datetime.now` is monotone), and
a generated id is fresh (uuid4 collisions are negligible and the spec treats
ids as collision-free). -/
def WFOp (db : List Task) (clk : Nat) : Op → Prop
  | .create id now c =>
    clk ≤ now ∧ validCreateBody c = true ∧ (idsOf db).contains id = false
  | .update _ now p => clk ≤ now ∧ validPatch p = true
  | .delete _ => True

/-- The stores reachable from the empty store at startup by well-formed
operations, together with the last clock reading. -/
inductive Reachable : Nat → List Task → Prop
  | init : Reachable 0 []
  | step {clk : Nat} {db : List Task} {op : Op} :
      Reachable clk db → WFOp db clk op →
      Reachable (opClock clk op) (applyOp db op)

/-- The store invariant maintained by the service: unique ids, `updated_at`
between `created_at` and the last clock reading, and every stored record
satisfying the field constraints. -/
def StoreInv (clk : Nat) (db : List Task) : Prop :=
  (idsOf db).Nodup ∧
  ∀ t ∈ db, t.created_at ≤ t.updated_at ∧ t.updated_at ≤ clk ∧
    validTitle t.title = true ∧ validDescription t.description = true

/-! ### Helper lemmas -/

/-- `contains` on the id list is membership. -/
theorem contains_idsOf_false_iff (db : List Task) (id : Nat) :
    (idsOf db).contains id = false ↔ ∀ t ∈ db, t.id ≠ id := by
  simp [idsOf]

/-- A fresh id matches no stored record. -/
theorem find?_eq_none_of_fresh (db : List Task) (id : Nat)
    (h : (idsOf db).contains id = false) :
    db.find? (fun t => t.id == id) = none := by
  rw [List.find?_eq_none]
  intro t ht
  simpa using (contains_idsOf_false_iff db id).mp h t ht

/-- Inserting a record with a fresh id appends it. -/
theorem dictInsert_fresh (db : List Task) (t : Task)
    (h : (idsOf db).contains t.id = false) :
    dictInsert db t = db ++ [t] := by
  unfold dictInsert
  rw [if_neg (by simpa using h)]

/-- Fetching a freshly appended record finds it. -/
theorem get_task_append_fresh (db : List Task) (t : Task)
    (h : (idsOf db).contains t.id = false) :
    get_task (db ++ [t]) t.id = .ok t := by
  unfold get_task
  rw [List.find?_append, find?_eq_none_of_fresh db t.id h]
  simp

/-- What a successful create-body validation guarantees. -/
theorem validateCreate_ok (raw : CreateTaskRaw) (c : CreateTask)
    (h : validateCreate raw = .ok c) :
    c.title = raw.title ∧ c.description = raw.description ∧
      (raw.status = none → c.status = .pending) ∧
      (∀ s, raw.status = some s → parseTaskStatus s = some c.status) ∧
      validCreateBody c = true := by
  unfold validateCreate at h
  split at h
  next hb =>
    split at h
    next hs =>
      cases h
      refine ⟨rfl, rfl, fun _ => rfl, ?_, by simpa [validCreateBody] using hb⟩
      intro s hs2
      rw [hs] at hs2
      cases hs2
    next s hs =>
      split at h
      next st hp =>
        cases h
        refine ⟨rfl, rfl, ?_, ?_, by simpa [validCreateBody] using hb⟩
        · intro h2; rw [hs] at h2; cases h2
        · intro s2 hs2
          rw [hs] at hs2
          cases hs2
          exact hp
      next => cases h
  next => cases h

/-- The per-status counting loop computes the filter counts, for any
starting accumulator. -/
theorem statusCounts_spec (db : List Task) (a b c : Nat) :
    statusCounts db (a, b, c) =
      (a + countStatus db .pending, b + countStatus db .inProgress,
        c + countStatus db .completed) := by
  induction db generalizing a b c with
  | nil => simp [statusCounts, countStatus]
  | cons t ts ih =>
    rcases hs : t.status with _ | _ | _ <;>
      simp only [statusCounts, hs, ih, countStatus, List.filter_cons] <;>
      simp [hs, countStatus, Nat.add_assoc, Nat.add_comm, Nat.add_left_comm]

/-- A title fails its constraint exactly when it is empty or longer than
200 characters. -/
theorem validTitle_false_iff (s : String) :
    validTitle s = false ↔ s.length = 0 ∨ 200 < s.length := by
  simp [validTitle]
  omega

/-- A description fails its constraint exactly when it is supplied and longer
than 1000 characters. -/
theorem validDescription_false_iff (d : Option String) :
    validDescription d = false ↔ ∃ s, d = some s ∧ 1000 < s.length := by
  cases d <;> simp [validDescription]

/-- A raw status fails exactly when it is supplied and outside the enum. -/
theorem statusOk_false_iff (o : Option String) :
    statusOk o = false ↔ ∃ s, o = some s ∧ parseTaskStatus s = none := by
  cases o with
  | none => simp [statusOk]
  | some s => cases h : parseTaskStatus s <;> simp [statusOk, h]

/-- Create-body validation only ever produces the validation error. -/
theorem validateCreate_error_kind (raw : CreateTaskRaw) (e : ApiError)
    (h : validateCreate raw = .error e) : e = .validation := by
  unfold validateCreate at h
  split at h
  · split at h
    · cases h
    · split at h
      · cases h
      · cases h; rfl
  · cases h; rfl

/-- Create-body validation fails exactly when a constraint is violated. -/
theorem validateCreate_error_iff (raw : CreateTaskRaw) :
    validateCreate raw = .error .validation ↔
      (validTitle raw.title = false ∨ validDescription raw.description = false ∨
        statusOk raw.status = false) := by
  unfold validateCreate
  by_cases hb : (validTitle raw.title && validDescription raw.description) = true
  · rw [if_pos hb]
    rw [Bool.and_eq_true] at hb
    cases hs : raw.status with
    | none => simp [statusOk, hb.1, hb.2]
    | some s =>
      cases hp : parseTaskStatus s with
      | none => simp [statusOk, hs, hp, hb.1, hb.2]
      | some st => simp [statusOk, hs, hp, hb.1, hb.2]
  · rw [if_neg hb]
    rw [Bool.and_eq_true] at hb
    simp only [not_and] at hb
    constructor
    · intro _
      rcases Bool.eq_false_or_eq_true (validTitle raw.title) with h1 | h1
      · exact Or.inr (Or.inl (Bool.eq_false_iff.mpr (hb h1)))
      · exact Or.inl h1
    · intro _
      rfl

/-- Update-body validation only ever produces the validation error. -/
theorem validateUpdate_error_kind (raw : UpdateTaskRaw) (e : ApiError)
    (h : validateUpdate raw = .error e) : e = .validation := by
  unfold validateUpdate at h
  split at h
  · split at h
    · cases h
    · split at h
      · cases h
      · cases h; rfl
  · cases h; rfl

/-- The supplied-title check of update-body validation. -/
theorem updateTitleOk_eq (raw : UpdateTaskRaw) :
    (match raw.title with | none => true | some s => validTitle s) = false ↔
      ∃ s, raw.title = some s ∧ validTitle s = false := by
  cases raw.title <;> simp

/-- Update-body validation fails exactly when a supplied field violates its
constraint. -/
theorem validateUpdate_error_iff (raw : UpdateTaskRaw) :
    validateUpdate raw = .error .validation ↔
      ((match raw.title with | none => true | some s => validTitle s) = false ∨
        validDescription raw.description = false ∨
        statusOk raw.status = false) := by
  unfold validateUpdate
  by_cases hb : ((match raw.title with | none => true | some s => validTitle s) &&
      validDescription raw.description) = true
  · rw [if_pos hb]
    rw [Bool.and_eq_true] at hb
    cases hs : raw.status with
    | none => simp [statusOk, hb.1, hb.2]
    | some s =>
      cases hp : parseTaskStatus s with
      | none => simp [statusOk, hs, hp, hb.1, hb.2]
      | some st => simp [statusOk, hs, hp, hb.1, hb.2]
  · rw [if_neg hb]
    rw [Bool.and_eq_true] at hb
    simp only [not_and] at hb
    constructor
    · intro _
      rcases Bool.eq_false_or_eq_true
          (match raw.title with | none => true | some s => validTitle s) with h1 | h1
      · exact Or.inr (Or.inl (Bool.eq_false_iff.mpr (hb h1)))
      · exact Or.inl h1
    · intro _
      rfl

/-- What a successful update-body validation guarantees. -/
theorem validateUpdate_ok (raw : UpdateTaskRaw) (p : UpdateTask)
    (h : validateUpdate raw = .ok p) :
    p.title = raw.title ∧ p.description = raw.description ∧
      (raw.status = none → p.status = none) ∧ validPatch p = true := by
  unfold validateUpdate at h
  split at h
  next hb =>
    rw [Bool.and_eq_true] at hb
    have hvp : ∀ st : Option TaskStatus,
        validPatch ⟨raw.title, raw.description, st⟩ = true := by
      intro st
      unfold validPatch
      rw [Bool.and_eq_true]
      refine ⟨hb.1, ?_⟩
      cases hd : raw.description with
      | none => rfl
      | some d =>
        rw [hd] at hb
        exact hb.2
    split at h
    next hs =>
      cases h
      exact ⟨rfl, rfl, fun _ => rfl, hvp none⟩
    next s hs =>
      split at h
      next st hp =>
        cases h
        refine ⟨rfl, rfl, ?_, hvp (some st)⟩
        rw [hs]
        intro h2
        cases h2
      next => cases h
  next => cases h

/-- `delete_task` only ever fails with the not-found error for its id. -/
theorem delete_task_error_kind (db : List Task) (id : Nat) (e : ApiError)
    (h : delete_task db id = .error e) : e = .notFound id := by
  unfold delete_task at h
  split at h
  · cases h
  · cases h
    rfl

/-- `update_task` only ever fails with the not-found error for its id. -/
theorem update_task_error_kind (db : List Task) (id : Nat) (p : UpdateTask)
    (now : Nat) (e : ApiError) (h : update_task db id p now = .error e) :
    e = .notFound id := by
  unfold update_task at h
  split at h
  · cases h; rfl
  · cases h

/-- Two stored records with the same id are the same record when ids are
unique. -/
theorem eq_of_mem_of_id_eq (db : List Task) (hnodup : (idsOf db).Nodup)
    {t u : Task} (ht : t ∈ db) (hu : u ∈ db) (hid : t.id = u.id) : t = u :=
  List.inj_on_of_nodup_map hnodup ht hu hid

/-- `find?` on the id locates the unique stored record with that id. -/
theorem find?_eq_of_mem (db : List Task) (hnodup : (idsOf db).Nodup)
    {t : Task} {id : Nat} (ht : t ∈ db) (hid : t.id = id) :
    db.find? (fun u => u.id == id) = some t := by
  cases hf : db.find? (fun u => u.id == id) with
  | none =>
    rw [List.find?_eq_none] at hf
    exact absurd (by simpa using hid) (hf t ht)
  | some u =>
    have hu := List.mem_of_find?_eq_some hf
    have hup : u.id = id := by simpa using List.find?_some hf
    rw [eq_of_mem_of_id_eq db hnodup hu ht (by rw [hup, hid])]

/-- Membership in the id list is witnessed by a stored record. -/
theorem contains_idsOf_true_iff (db : List Task) (id : Nat) :
    (idsOf db).contains id = true ↔ ∃ t ∈ db, t.id = id := by
  simp [idsOf, eq_comm]

/-- Membership in an insertion step. -/
theorem mem_insertDesc {x t : Task} {l : List Task} :
    x ∈ insertDesc t l ↔ x = t ∨ x ∈ l := by
  induction l with
  | nil => simp [insertDesc]
  | cons u us ih =>
    unfold insertDesc
    split
    · simp [or_comm, or_left_comm]
    · simp [ih, or_comm, or_left_comm]

/-- An insertion step is a permutation of consing. -/
theorem insertDesc_perm (t : Task) (l : List Task) :
    (insertDesc t l).Perm (t :: l) := by
  induction l with
  | nil => simp [insertDesc]
  | cons u us ih =>
    unfold insertDesc
    split
    · exact List.Perm.refl _
    · exact (ih.cons u).trans (List.Perm.swap t u us)

/-- The sort is a permutation of its input. -/
theorem sortByCreatedDesc_perm (l : List Task) :
    (sortByCreatedDesc l).Perm l := by
  induction l with
  | nil => exact List.Perm.refl _
  | cons t ts ih => exact (insertDesc_perm t (sortByCreatedDesc ts)).trans (ih.cons t)

/-- An insertion step keeps the list sorted by `created_at` descending. -/
theorem pairwise_insertDesc (t : Task) (l : List Task)
    (h : l.Pairwise (fun a b => b.created_at ≤ a.created_at)) :
    (insertDesc t l).Pairwise (fun a b => b.created_at ≤ a.created_at) := by
  induction l with
  | nil => simp [insertDesc]
  | cons u us ih =>
    unfold insertDesc
    split
    next hle =>
      refine List.Pairwise.cons ?_ h
      intro x hx
      rcases List.mem_cons.mp hx with rfl | hx
      · exact hle
      · exact le_trans (List.rel_of_pairwise_cons h hx) hle
    next hgt =>
      obtain ⟨hu, hus⟩ := List.pairwise_cons.mp h
      refine List.Pairwise.cons ?_ (ih hus)
      intro x hx
      rcases mem_insertDesc.mp hx with rfl | hx
      · omega
      · exact hu x hx

/-- The sort output is sorted by `created_at` descending. -/
theorem sortByCreatedDesc_pairwise (l : List Task) :
    (sortByCreatedDesc l).Pairwise (fun a b => b.created_at ≤ a.created_at) := by
  induction l with
  | nil => simp [sortByCreatedDesc]
  | cons t ts ih => exact pairwise_insertDesc t (sortByCreatedDesc ts) ih

/-- Stability of one insertion step, phrased through the timestamp filter:
among the records carrying any one timestamp, the inserted record comes
first and the rest keep their order. -/
theorem filter_insertDesc (t : Task) (l : List Task) (c : Nat) :
    (insertDesc t l).filter (fun u => u.created_at == c) =
      if t.created_at == c then
        t :: l.filter (fun u => u.created_at == c)
      else
        l.filter (fun u => u.created_at == c) := by
  induction l with
  | nil =>
    rw [show insertDesc t [] = [t] from rfl, List.filter_cons]
  | cons u us ih =>
    unfold insertDesc
    split
    next hle =>
      rw [List.filter_cons]
    next hgt =>
      rw [List.filter_cons, ih, List.filter_cons]
      by_cases htc : t.created_at = c
      · have huc : ¬ u.created_at = c := by omega
        simp [htc, huc]
      · by_cases huc : u.created_at = c <;> simp [htc, huc]

/-- Stability of the whole sort: the records carrying any one timestamp
appear in the sorted output in their original relative order. -/
theorem filter_sortByCreatedDesc (l : List Task) (c : Nat) :
    (sortByCreatedDesc l).filter (fun u => u.created_at == c) =
      l.filter (fun u => u.created_at == c) := by
  induction l with
  | nil => rfl
  | cons t ts ih =>
    show (insertDesc t (sortByCreatedDesc ts)).filter _ = _
    rw [filter_insertDesc, ih, List.filter_cons]

/-- The paginated output is a sublist of the sorted sequence. -/
theorem list_tasks_sublist_sorted (db : List Task) (status : Option TaskStatus)
    (limit offset : Nat) :
    (list_tasks db status limit offset).Sublist
      (sortByCreatedDesc (filteredTasks db status)) :=
  ((sortByCreatedDesc (filteredTasks db status)).drop offset).take_sublist limit
    |>.trans ((sortByCreatedDesc (filteredTasks db status)).drop_sublist offset)

/-- Every record the filter stage keeps is a stored record. -/
theorem filteredTasks_sublist (db : List Task) (status : Option TaskStatus) :
    (filteredTasks db status).Sublist db := by
  cases status with
  | none => exact List.Sublist.refl db
  | some s => exact db.filter_sublist

/-- The declared query-parameter bounds, as a proposition. -/
theorem validListParams_true_iff (l o : Int) :
    validListParams l o = true ↔ (1 ≤ l ∧ l ≤ 100 ∧ 0 ≤ o) := by
  simp [validListParams, and_assoc]

/-- Deleting an id that is stored by no record keeps every record. -/
theorem filter_ne_of_not_contains (db : List Task) (id : Nat)
    (h : (idsOf db).contains id = false) :
    db.filter (fun t => !(t.id == id)) = db :=
  List.filter_eq_self.mpr fun t ht => by
    simpa using (contains_idsOf_false_iff db id).mp h t ht

/-- With unique ids, deleting a stored id removes exactly one record. -/
theorem length_filter_delete (db : List Task) (id : Nat)
    (hnodup : (idsOf db).Nodup) (hmem : (idsOf db).contains id = true) :
    (db.filter (fun t => !(t.id == id))).length + 1 = db.length := by
  induction db with
  | nil => simp [idsOf] at hmem
  | cons u us ih =>
    have hnd : u.id ∉ idsOf us ∧ (idsOf us).Nodup := by
      simpa [idsOf] using hnodup
    by_cases hu : u.id = id
    · have hus : (idsOf us).contains id = false := by
        rw [← hu]
        simpa using hnd.1
      have hfilter : us.filter (fun t => !(t.id == id)) = us :=
        filter_ne_of_not_contains us id hus
      rw [List.filter_cons, if_neg (by simp [hu]), hfilter]
      simp
    · have hmem2 : (idsOf us).contains id = true := by
        rcases (contains_idsOf_true_iff (u :: us) id).mp hmem with ⟨t, ht, hid⟩
        rcases List.mem_cons.mp ht with rfl | ht2
        · exact absurd hid hu
        · exact (contains_idsOf_true_iff us id).mpr ⟨t, ht2, hid⟩
      have : (u :: us).filter (fun t => !(t.id == id)) =
          u :: us.filter (fun t => !(t.id == id)) := by
        rw [List.filter_cons]
        simp [hu]
      rw [this]
      simp only [List.length_cons]
      rw [← ih hnd.2 hmem2]

/-! ### Claim theorems -/

/-- A fresh id is stored by no record. -/
theorem not_mem_idsOf_of_fresh (db : List Task) (id : Nat)
    (h : (idsOf db).contains id = false) : id ∉ idsOf db := by
  simpa using h

/-- A well-formed create preserves the store invariant. -/
theorem storeInv_create (db : List Task) (clk id now : Nat) (c : CreateTask)
    (hinv : StoreInv clk db) (hclk : clk ≤ now)
    (hc : validCreateBody c = true)
    (hfresh : (idsOf db).contains id = false) :
    StoreInv now (applyOp db (.create id now c)) := by
  obtain ⟨hnodup, hfields⟩ := hinv
  have happ : applyOp db (.create id now c) =
      db ++ [⟨id, c.title, c.description, c.status, now, now⟩] :=
    dictInsert_fresh db _ hfresh
  rw [happ]
  constructor
  · have hids : idsOf (db ++ [⟨id, c.title, c.description, c.status, now, now⟩]) =
        idsOf db ++ [id] := by
      simp [idsOf]
    rw [hids]
    exact hnodup.append (by simp)
      (by simp [List.disjoint_singleton, not_mem_idsOf_of_fresh db id hfresh])
  · intro t ht
    rcases List.mem_append.mp ht with h1 | h1
    · have hf := hfields t h1
      exact ⟨hf.1, le_trans hf.2.1 hclk, hf.2.2.1, hf.2.2.2⟩
    · have ht2 : t = ⟨id, c.title, c.description, c.status, now, now⟩ := by
        simpa using h1
      subst ht2
      rw [validCreateBody, Bool.and_eq_true] at hc
      exact ⟨le_refl now, le_refl now, hc.1, hc.2⟩

/-- A valid patch keeps the patched record within the field constraints. -/
theorem applyPatch_valid (t : Task) (p : UpdateTask) (now : Nat)
    (hp : validPatch p = true)
    (ht : validTitle t.title = true ∧ validDescription t.description = true) :
    validTitle (applyPatch t p now).title = true ∧
      validDescription (applyPatch t p now).description = true := by
  rw [validPatch, Bool.and_eq_true] at hp
  constructor
  · cases hpt : p.title with
    | none => simpa [applyPatch, hpt] using ht.1
    | some s =>
      rw [hpt] at hp
      simpa [applyPatch, hpt] using hp.1
  · cases hpd : p.description with
    | none => simpa [applyPatch, hpd] using ht.2
    | some d =>
      rw [hpd] at hp
      simpa [applyPatch, hpd] using hp.2

/-- An update leaves the list of stored ids unchanged. -/
theorem idsOf_update_map (db : List Task) (id : Nat) (t2 : Task)
    (hid : t2.id = id) :
    idsOf (db.map (fun u => if u.id == id then t2 else u)) = idsOf db := by
  simp only [idsOf, List.map_map]
  apply List.map_congr_left
  intro u _
  by_cases h2 : u.id = id
  · simp [Function.comp, h2, hid]
  · simp [Function.comp, h2]

/-- A well-formed update preserves the store invariant. -/
theorem storeInv_update (db : List Task) (clk id now : Nat) (p : UpdateTask)
    (hinv : StoreInv clk db) (hclk : clk ≤ now) (hp : validPatch p = true) :
    StoreInv now (applyOp db (.update id now p)) := by
  obtain ⟨hnodup, hfields⟩ := hinv
  have hmono : StoreInv now db :=
    ⟨hnodup, fun t ht =>
      ⟨(hfields t ht).1, le_trans (hfields t ht).2.1 hclk,
        (hfields t ht).2.2.1, (hfields t ht).2.2.2⟩⟩
  show StoreInv now
    (match update_task db id p now with | .ok r => r.2 | .error _ => db)
  cases hf : db.find? (fun t => t.id == id) with
  | none =>
    have hupd : update_task db id p now = .error (.notFound id) := by
      unfold update_task
      rw [hf]
    rw [hupd]
    exact hmono
  | some t =>
    have htmem := List.mem_of_find?_eq_some hf
    have htid : t.id = id := by simpa using List.find?_some hf
    have hupd : update_task db id p now =
        .ok (applyPatch t p now,
          db.map (fun u => if u.id == id then applyPatch t p now else u)) := by
      unfold update_task
      rw [hf]
    rw [hupd]
    constructor
    · rw [idsOf_update_map db id (applyPatch t p now) htid]
      exact hnodup
    · intro x hx
      rcases List.mem_map.mp hx with ⟨u, hu, rfl⟩
      by_cases h2 : u.id = id
      · rw [if_pos (by simp [h2])]
        have hft := hfields t htmem
        have hv := applyPatch_valid t p now hp ⟨hft.2.2.1, hft.2.2.2⟩
        exact ⟨le_trans (le_trans hft.1 hft.2.1) hclk, le_refl now, hv.1, hv.2⟩
      · rw [if_neg (by simp [h2])]
        exact hmono.2 u hu

/-- A delete preserves the store invariant. -/
theorem storeInv_delete (db : List Task) (clk id : Nat)
    (hinv : StoreInv clk db) :
    StoreInv clk (applyOp db (.delete id)) := by
  obtain ⟨hnodup, hfields⟩ := hinv
  show StoreInv clk
    (match delete_task db id with | .ok db2 => db2 | .error _ => db)
  unfold delete_task
  by_cases hc : (idsOf db).contains id = true
  · rw [if_pos hc]
    show StoreInv clk (db.filter (fun t => !(t.id == id)))
    constructor
    · have hsub : (idsOf (db.filter (fun t => !(t.id == id)))).Sublist (idsOf db) := by
        unfold idsOf
        exact (db.filter_sublist).map (·.id)
      exact hnodup.sublist hsub
    · intro t ht
      exact hfields t (List.mem_filter.mp ht).1
  · rw [if_neg hc]
    exact ⟨hnodup, hfields⟩

/-- Every reachable store state satisfies the store invariant. -/
theorem reachable_storeInv (clk : Nat) (db : List Task)
    (h : Reachable clk db) : StoreInv clk db := by
  induction h with
  | init => exact ⟨by simp [idsOf], by simp⟩
  | @step clk db op hreach hwf ih =>
    cases op with
    | create id now c =>
      obtain ⟨hclk, hc, hfresh⟩ := hwf
      exact storeInv_create db clk id now c ih hclk hc hfresh
    | update id now p =>
      obtain ⟨hclk, hp⟩ := hwf
      exact storeInv_update db clk id now p ih hclk hp
    | delete id => exact storeInv_delete db clk id ih

/-- A well-formed operation never changes the `created_at` of a surviving
record. -/
theorem createdAt_preserved (db : List Task) (clk : Nat) (op : Op)
    (hnodup : (idsOf db).Nodup) (hwf : WFOp db clk op) :
    ∀ t ∈ db, ∀ t2 ∈ applyOp db op, t2.id = t.id →
      t2.created_at = t.created_at := by
  intro t ht t2 ht2 hid
  cases op with
  | create id now c =>
    obtain ⟨-, -, hfresh⟩ := hwf
    rw [show applyOp db (.create id now c) =
        db ++ [⟨id, c.title, c.description, c.status, now, now⟩] from
      dictInsert_fresh db _ hfresh] at ht2
    rcases List.mem_append.mp ht2 with h1 | h1
    · rw [eq_of_mem_of_id_eq db hnodup h1 ht hid]
    · have ht2eq : t2 = ⟨id, c.title, c.description, c.status, now, now⟩ := by
        simpa using h1
      have : t.id = id := by
        rw [← hid, ht2eq]
      exact absurd this ((contains_idsOf_false_iff db id).mp hfresh t ht)
  | update id now p =>
    have happ : applyOp db (.update id now p) =
        match update_task db id p now with | .ok r => r.2 | .error _ => db := rfl
    rw [happ] at ht2
    cases hf : db.find? (fun u => u.id == id) with
    | none =>
      have hupd : update_task db id p now = .error (.notFound id) := by
        unfold update_task
        rw [hf]
      rw [hupd] at ht2
      rw [eq_of_mem_of_id_eq db hnodup ht2 ht hid]
    | some t0 =>
      have ht0mem := List.mem_of_find?_eq_some hf
      have ht0id : t0.id = id := by simpa using List.find?_some hf
      have hupd : update_task db id p now =
          .ok (applyPatch t0 p now,
            db.map (fun u => if u.id == id then applyPatch t0 p now else u)) := by
        unfold update_task
        rw [hf]
      rw [hupd] at ht2
      rcases List.mem_map.mp ht2 with ⟨u, hu, rfl⟩
      by_cases h2 : u.id = id
      · rw [if_pos (by simp [h2])] at hid ⊢
        have ht0t : t0 = t := by
          apply eq_of_mem_of_id_eq db hnodup ht0mem ht
          rw [← hid]
          rfl
        rw [show (applyPatch t0 p now).created_at = t0.created_at from rfl, ht0t]
      · rw [if_neg (by simp [h2])] at hid ⊢
        rw [eq_of_mem_of_id_eq db hnodup hu ht hid]
  | delete id =>
    have happ : applyOp db (.delete id) =
        match delete_task db id with | .ok db2 => db2 | .error _ => db := rfl
    rw [happ] at ht2
    unfold delete_task at ht2
    by_cases hc : (idsOf db).contains id = true
    · rw [if_pos hc] at ht2
      rw [eq_of_mem_of_id_eq db hnodup (List.mem_filter.mp ht2).1 ht hid]
    · rw [if_neg hc] at ht2
      rw [eq_of_mem_of_id_eq db hnodup ht2 ht hid]

/-- C1: for every valid create body and fresh id, `create_task` appends
exactly one new record whose id is the generated one, whose status is the
supplied status (defaulting to pending when absent), whose `created_at` and
`updated_at` both equal the current time; it returns that record, and an
immediate `get_task` of the new id returns the identical record. -/
theorem create_then_get_roundtrip (db : List Task) (raw : CreateTaskRaw)
    (c : CreateTask) (id now : Nat)
    (hv : validateCreate raw = .ok c)
    (hfresh : (idsOf db).contains id = false) :
    (create_task db id now c).1.id = id ∧
    (create_task db id now c).1.title = raw.title ∧
    (create_task db id now c).1.description = raw.description ∧
    (raw.status = none → (create_task db id now c).1.status = .pending) ∧
    (create_task db id now c).1.created_at = now ∧
    (create_task db id now c).1.updated_at = now ∧
    (create_task db id now c).2 = db ++ [(create_task db id now c).1] ∧
    (create_task db id now c).2.length = db.length + 1 ∧
    get_task (create_task db id now c).2 id = .ok (create_task db id now c).1 := by
  obtain ⟨ht, hd, hst, -, -⟩ := validateCreate_ok raw c hv
  refine ⟨rfl, ht, hd, fun h => hst h, rfl, rfl, ?_, ?_, ?_⟩
  · exact congrArg (Prod.snd) (congrArg _ rfl) |>.trans (dictInsert_fresh db _ hfresh)
  · rw [show (create_task db id now c).2 = db ++ [(create_task db id now c).1] from
      dictInsert_fresh db _ hfresh]
    simp
  · rw [show (create_task db id now c).2 = db ++ [(create_task db id now c).1] from
      dictInsert_fresh db _ hfresh]
    exact get_task_append_fresh db _ hfresh

/-- C1 witness: creating "Buy milk" in the empty store at time 5 with id 1. -/
theorem create_then_get_roundtrip_witness :
    (create_task [] 1 5 ⟨"Buy milk", none, .pending⟩).1.id = 1 ∧
    (create_task [] 1 5 ⟨"Buy milk", none, .pending⟩).1.title = "Buy milk" ∧
    (create_task [] 1 5 ⟨"Buy milk", none, .pending⟩).1.description = none ∧
    ((none : Option String) = none →
      (create_task [] 1 5 ⟨"Buy milk", none, .pending⟩).1.status = .pending) ∧
    (create_task [] 1 5 ⟨"Buy milk", none, .pending⟩).1.created_at = 5 ∧
    (create_task [] 1 5 ⟨"Buy milk", none, .pending⟩).1.updated_at = 5 ∧
    (create_task [] 1 5 ⟨"Buy milk", none, .pending⟩).2 =
      [] ++ [(create_task [] 1 5 ⟨"Buy milk", none, .pending⟩).1] ∧
    (create_task [] 1 5 ⟨"Buy milk", none, .pending⟩).2.length =
      ([] : List Task).length + 1 ∧
    get_task (create_task [] 1 5 ⟨"Buy milk", none, .pending⟩).2 1 =
      .ok (create_task [] 1 5 ⟨"Buy milk", none, .pending⟩).1 :=
  create_then_get_roundtrip [] ⟨"Buy milk", none, none⟩ ⟨"Buy milk", none, .pending⟩
    1 5 rfl rfl

/-- C7: stats on the empty store is total 0 with an empty by_status dict and
the "No tasks yet" message; on a non-empty store it is the total record count
together with, for each of the three statuses (zeros included), the number of
stored tasks having exactly that status. -/
theorem stats_summary_spec (db : List Task) :
    (db = [] → get_stats db = ⟨0, [], some "No tasks yet"⟩) ∧
    (db ≠ [] → get_stats db =
      ⟨db.length,
        [(.pending, countStatus db .pending),
         (.inProgress, countStatus db .inProgress),
         (.completed, countStatus db .completed)], none⟩) := by
  constructor
  · rintro rfl
    rfl
  · intro hne
    unfold get_stats
    rw [if_neg (by simpa using hne)]
    rw [statusCounts_spec db 0 0 0]
    simp

/-- C7 witness: the empty store, and a store of three tasks with statuses
pending, pending, completed giving total 3 and counts 2/0/1. -/
theorem stats_summary_spec_witness :
    get_stats [] = ⟨0, [], some "No tasks yet"⟩ ∧
    get_stats [⟨1, "a", none, .pending, 5, 5⟩, ⟨2, "b", none, .pending, 6, 6⟩,
        ⟨3, "c", none, .completed, 7, 7⟩] =
      ⟨3, [(.pending, 2), (.inProgress, 0), (.completed, 1)], none⟩ :=
  ⟨(stats_summary_spec []).1 rfl,
    (stats_summary_spec [⟨1, "a", none, .pending, 5, 5⟩, ⟨2, "b", none, .pending, 6, 6⟩,
        ⟨3, "c", none, .completed, 7, 7⟩]).2 (by simp)⟩

/-- C2: `Update` overwrites exactly the fields supplied in the patch,
refreshes `updated_at` to the current time, and leaves `created_at`, the id,
every unsupplied field, and every other stored record unchanged; it fails
with the not-found error when the id is absent and with the validation error
when a supplied field violates its constraint. -/
theorem update_task_frame (db : List Task) (id now : Nat) (raw : UpdateTaskRaw)
    (hnodup : (idsOf db).Nodup) :
    (((match raw.title with | none => true | some s => validTitle s) = false ∨
        validDescription raw.description = false ∨ statusOk raw.status = false) →
      updateEndpoint db id raw now = (.error .validation, db)) ∧
    (∀ p, validateUpdate raw = .ok p →
      ((idsOf db).contains id = false →
        updateEndpoint db id raw now = (.error (.notFound id), db)) ∧
      (∀ t, t ∈ db → t.id = id →
        (updateEndpoint db id raw now).1 = .ok (applyPatch t p now) ∧
        (applyPatch t p now).id = t.id ∧
        (applyPatch t p now).created_at = t.created_at ∧
        (applyPatch t p now).updated_at = now ∧
        (p.title = none → (applyPatch t p now).title = t.title) ∧
        (∀ s, p.title = some s → (applyPatch t p now).title = s) ∧
        (p.description = none →
          (applyPatch t p now).description = t.description) ∧
        (∀ d, p.description = some d →
          (applyPatch t p now).description = some d) ∧
        (p.status = none → (applyPatch t p now).status = t.status) ∧
        (∀ st, p.status = some st → (applyPatch t p now).status = st) ∧
        (updateEndpoint db id raw now).2 =
          db.map (fun u => if u.id == id then applyPatch t p now else u) ∧
        (∀ u ∈ db, u.id ≠ id → u ∈ (updateEndpoint db id raw now).2))) := by
  constructor
  · intro hbad
    have hv := (validateUpdate_error_iff raw).mpr hbad
    simp [updateEndpoint, hv]
  · intro p hv
    constructor
    · intro hfresh
      have hfind := find?_eq_none_of_fresh db id hfresh
      simp [updateEndpoint, hv, update_task, hfind]
    · intro t ht hid
      have hfind := find?_eq_of_mem db hnodup ht hid
      have hend : updateEndpoint db id raw now =
          (.ok (applyPatch t p now),
            db.map (fun u => if u.id == id then applyPatch t p now else u)) := by
        simp [updateEndpoint, hv, update_task, hfind]
      refine ⟨by rw [hend], rfl, rfl, rfl, ?_, ?_, ?_, ?_, ?_, ?_, by rw [hend], ?_⟩
      · intro h
        simp [applyPatch, h]
      · intro s h
        simp [applyPatch, h]
      · intro h
        simp [applyPatch, h]
      · intro d h
        simp [applyPatch, h]
      · intro h
        simp [applyPatch, h]
      · intro st h
        simp [applyPatch, h]
      · intro u hu hne
        rw [hend]
        exact List.mem_map.mpr ⟨u, hu, by simp [hne]⟩

/-- C2 witness: patching only the status of a stored task changes only
status and `updated_at`. -/
theorem update_task_frame_witness :
    (updateEndpoint [⟨1, "a", some "d", .pending, 5, 5⟩] 1
        ⟨none, none, some "completed"⟩ 9).1 =
      .ok (applyPatch ⟨1, "a", some "d", .pending, 5, 5⟩
        ⟨none, none, some .completed⟩ 9) ∧
    (applyPatch ⟨1, "a", some "d", .pending, 5, 5⟩
        ⟨none, none, some .completed⟩ 9).created_at =
      (⟨1, "a", some "d", .pending, 5, 5⟩ : Task).created_at ∧
    (applyPatch ⟨1, "a", some "d", .pending, 5, 5⟩
        ⟨none, none, some .completed⟩ 9).updated_at = 9 ∧
    (applyPatch ⟨1, "a", some "d", .pending, 5, 5⟩
        ⟨none, none, some .completed⟩ 9).title =
      (⟨1, "a", some "d", .pending, 5, 5⟩ : Task).title ∧
    (applyPatch ⟨1, "a", some "d", .pending, 5, 5⟩
        ⟨none, none, some .completed⟩ 9).description =
      (⟨1, "a", some "d", .pending, 5, 5⟩ : Task).description ∧
    (applyPatch ⟨1, "a", some "d", .pending, 5, 5⟩
        ⟨none, none, some .completed⟩ 9).status = .completed :=
  have h := (update_task_frame [⟨1, "a", some "d", .pending, 5, 5⟩] 1 9
      ⟨none, none, some "completed"⟩ (by simp [idsOf])).2
    ⟨none, none, some .completed⟩ rfl |>.2
    ⟨1, "a", some "d", .pending, 5, 5⟩ (by simp) rfl
  ⟨h.1, h.2.2.1, h.2.2.2.1, h.2.2.2.2.1 rfl, h.2.2.2.2.2.2.1 rfl,
    h.2.2.2.2.2.2.2.2.2.1 .completed rfl⟩

/-- C3: `List` returns the stored records, optionally filtered to an exact
status match, sorted by `created_at` descending, and sliced to the index
range [offset, offset+limit) of that sorted sequence: the output is exactly
the take/drop slice of the sorted filtered sequence, the sorted sequence is a
permutation of the filtered one and is pairwise descending in `created_at`,
every returned record is stored and matches the requested status, at most
`limit` records are returned, and the i-th returned record is the
(offset+i)-th record of the sorted sequence. -/
theorem list_tasks_spec (db : List Task) (status : Option TaskStatus)
    (limit offset : Nat) :
    list_tasks db status limit offset =
      ((sortByCreatedDesc (filteredTasks db status)).drop offset).take limit ∧
    (sortByCreatedDesc (filteredTasks db status)).Perm (filteredTasks db status) ∧
    (sortByCreatedDesc (filteredTasks db status)).Pairwise
      (fun a b => b.created_at ≤ a.created_at) ∧
    (∀ s, status = some s → ∀ t ∈ list_tasks db status limit offset, t.status = s) ∧
    (∀ t ∈ list_tasks db status limit offset, t ∈ db) ∧
    (list_tasks db status limit offset).length ≤ limit ∧
    (∀ (i : Nat) (h1 : i < (list_tasks db status limit offset).length)
      (h2 : offset + i < (sortByCreatedDesc (filteredTasks db status)).length),
      (list_tasks db status limit offset).get ⟨i, h1⟩ =
        (sortByCreatedDesc (filteredTasks db status)).get ⟨offset + i, h2⟩) := by
  have hmem : ∀ t ∈ list_tasks db status limit offset, t ∈ filteredTasks db status := by
    intro t ht
    exact (sortByCreatedDesc_perm (filteredTasks db status)).mem_iff.mp
      ((list_tasks_sublist_sorted db status limit offset).mem ht)
  refine ⟨rfl, sortByCreatedDesc_perm _, sortByCreatedDesc_pairwise _, ?_, ?_, ?_, ?_⟩
  · rintro s rfl t ht
    have hmem2 := hmem t ht
    simp only [filteredTasks] at hmem2
    simpa using (List.mem_filter.mp hmem2).2
  · intro t ht
    exact (filteredTasks_sublist db status).mem (hmem t ht)
  · exact List.length_take_le _ _
  · intro i h1 h2
    simp only [List.get_eq_getElem, list_tasks]
    rw [List.getElem_take, List.getElem_drop]

/-- C3 witness: a three-task store filtered by completed status with
limit 10, offset 0. -/
theorem list_tasks_spec_witness :
    (list_tasks [⟨1, "a", none, .pending, 5, 5⟩, ⟨2, "b", none, .completed, 6, 6⟩]
        (some .completed) 10 0 =
      ((sortByCreatedDesc (filteredTasks
          [⟨1, "a", none, .pending, 5, 5⟩, ⟨2, "b", none, .completed, 6, 6⟩]
          (some .completed))).drop 0).take 10) ∧
    (∀ t ∈ list_tasks [⟨1, "a", none, .pending, 5, 5⟩, ⟨2, "b", none, .completed, 6, 6⟩]
        (some .completed) 10 0, t.status = .completed) ∧
    (∀ t ∈ list_tasks [⟨1, "a", none, .pending, 5, 5⟩, ⟨2, "b", none, .completed, 6, 6⟩]
        (some .completed) 10 0,
      t ∈ [⟨1, "a", none, .pending, 5, 5⟩, ⟨2, "b", none, .completed, 6, 6⟩]) ∧
    (list_tasks [⟨1, "a", none, .pending, 5, 5⟩, ⟨2, "b", none, .completed, 6, 6⟩]
        (some .completed) 10 0).length ≤ 10 :=
  ⟨(list_tasks_spec [⟨1, "a", none, .pending, 5, 5⟩, ⟨2, "b", none, .completed, 6, 6⟩]
      (some .completed) 10 0).1,
    (list_tasks_spec [⟨1, "a", none, .pending, 5, 5⟩, ⟨2, "b", none, .completed, 6, 6⟩]
      (some .completed) 10 0).2.2.2.1 .completed rfl,
    (list_tasks_spec [⟨1, "a", none, .pending, 5, 5⟩, ⟨2, "b", none, .completed, 6, 6⟩]
      (some .completed) 10 0).2.2.2.2.1,
    (list_tasks_spec [⟨1, "a", none, .pending, 5, 5⟩, ⟨2, "b", none, .completed, 6, 6⟩]
      (some .completed) 10 0).2.2.2.2.2.1⟩

/-- C8: on the same store and arguments `List` always returns the same
sequence, and records with equal `created_at` keep their store
(= insertion) order: among the records carrying any one timestamp, the sort
output equals the store order, and the paginated output is a subsequence of
the store order. -/
theorem list_tasks_deterministic_stable (db : List Task)
    (status : Option TaskStatus) (limit offset : Nat) :
    (∀ db2, db2 = db →
      list_tasks db2 status limit offset = list_tasks db status limit offset) ∧
    (∀ c, (sortByCreatedDesc db).filter (fun t => t.created_at == c) =
      db.filter (fun t => t.created_at == c)) ∧
    (∀ c, ((list_tasks db status limit offset).filter
        (fun t => t.created_at == c)).Sublist
      (db.filter (fun t => t.created_at == c))) := by
  refine ⟨?_, fun c => filter_sortByCreatedDesc db c, ?_⟩
  · rintro db2 rfl
    rfl
  · intro c
    have h1 : ((list_tasks db status limit offset).filter
        (fun t => t.created_at == c)).Sublist
        ((sortByCreatedDesc (filteredTasks db status)).filter
          (fun t => t.created_at == c)) :=
      (list_tasks_sublist_sorted db status limit offset).filter _
    rw [filter_sortByCreatedDesc] at h1
    exact h1.trans ((filteredTasks_sublist db status).filter _)

/-- C8 witness: two tasks sharing `created_at` 5 keep their insertion order
in the sorted output and in the paginated output. -/
theorem list_tasks_deterministic_stable_witness :
    (list_tasks [⟨1, "a", none, .pending, 5, 5⟩, ⟨2, "b", none, .pending, 5, 5⟩]
        none 10 0 =
      list_tasks [⟨1, "a", none, .pending, 5, 5⟩, ⟨2, "b", none, .pending, 5, 5⟩]
        none 10 0) ∧
    ((sortByCreatedDesc [⟨1, "a", none, .pending, 5, 5⟩, ⟨2, "b", none, .pending, 5, 5⟩]).filter
        (fun t => t.created_at == 5) =
      ([⟨1, "a", none, .pending, 5, 5⟩, ⟨2, "b", none, .pending, 5, 5⟩] : List Task).filter
        (fun t => t.created_at == 5)) ∧
    ((list_tasks [⟨1, "a", none, .pending, 5, 5⟩, ⟨2, "b", none, .pending, 5, 5⟩]
        none 10 0).filter (fun t => t.created_at == 5)).Sublist
      (([⟨1, "a", none, .pending, 5, 5⟩, ⟨2, "b", none, .pending, 5, 5⟩] : List Task).filter
        (fun t => t.created_at == 5)) :=
  ⟨(list_tasks_deterministic_stable
      [⟨1, "a", none, .pending, 5, 5⟩, ⟨2, "b", none, .pending, 5, 5⟩] none 10 0).1 _ rfl,
    (list_tasks_deterministic_stable
      [⟨1, "a", none, .pending, 5, 5⟩, ⟨2, "b", none, .pending, 5, 5⟩] none 10 0).2.1 5,
    (list_tasks_deterministic_stable
      [⟨1, "a", none, .pending, 5, 5⟩, ⟨2, "b", none, .pending, 5, 5⟩] none 10 0).2.2 5⟩

/-- C4: in every store state reachable by well-formed create/update/delete
operations, ids are unique, every record has `updated_at ≥ created_at` and
satisfies the title/description constraints, and no further well-formed
operation changes the `created_at` of a record that survives it. -/
theorem store_invariants (clk : Nat) (db : List Task) (h : Reachable clk db) :
    (idsOf db).Nodup ∧
    (∀ t ∈ db, t.created_at ≤ t.updated_at ∧ validTitle t.title = true ∧
      validDescription t.description = true) ∧
    (∀ op, WFOp db clk op → ∀ t ∈ db, ∀ t2 ∈ applyOp db op,
      t2.id = t.id → t2.created_at = t.created_at) := by
  have hinv := reachable_storeInv clk db h
  exact ⟨hinv.1,
    fun t ht => ⟨(hinv.2 t ht).1, (hinv.2 t ht).2.2.1, (hinv.2 t ht).2.2.2⟩,
    fun op hwf => createdAt_preserved db clk op hinv.1 hwf⟩

/-- C4 witness: the store reached by creating one task at time 5 in the
empty store. -/
theorem store_invariants_witness :
    (idsOf [⟨1, "a", none, .pending, 5, 5⟩]).Nodup ∧
    (∀ t ∈ ([⟨1, "a", none, .pending, 5, 5⟩] : List Task),
      t.created_at ≤ t.updated_at ∧ validTitle t.title = true ∧
      validDescription t.description = true) ∧
    (∀ op, WFOp [⟨1, "a", none, .pending, 5, 5⟩] 5 op →
      ∀ t ∈ ([⟨1, "a", none, .pending, 5, 5⟩] : List Task),
      ∀ t2 ∈ applyOp [⟨1, "a", none, .pending, 5, 5⟩] op,
      t2.id = t.id → t2.created_at = t.created_at) :=
  store_invariants 5 [⟨1, "a", none, .pending, 5, 5⟩]
    (@Reachable.step 0 [] (.create 1 5 ⟨"a", none, .pending⟩)
      Reachable.init ⟨by omega, by decide, rfl⟩)

/-- C5: an operation fails with the validation error exactly when its input
is out of bounds — create/update with an empty or over-200-character title,
an over-1000-character description, or a status outside the enum; list with
`limit` outside [1,100] or `offset` below 0 (after the declared defaults) —
and in-range limit/offset are used exactly as given, never clamped; get and
delete only ever fail with the not-found error. -/
theorem validation_errors_exact (db : List Task) :
    (∀ id now raw, ((createEndpoint db id now raw).1 = .error .validation ↔
      (raw.title.length = 0 ∨ 200 < raw.title.length ∨
        (∃ d, raw.description = some d ∧ 1000 < d.length) ∨
        (∃ s, raw.status = some s ∧ parseTaskStatus s = none)))) ∧
    (∀ id raw now, ((updateEndpoint db id raw now).1 = .error .validation ↔
      ((∃ s, raw.title = some s ∧ (s.length = 0 ∨ 200 < s.length)) ∨
        (∃ d, raw.description = some d ∧ 1000 < d.length) ∨
        (∃ s, raw.status = some s ∧ parseTaskStatus s = none)))) ∧
    (∀ status limit offset,
      ((listEndpoint db status limit offset).1 = .error .validation ↔
        ¬(1 ≤ limit.getD 10 ∧ limit.getD 10 ≤ 100 ∧ 0 ≤ offset.getD 0))) ∧
    (∀ status (l o : Int), validListParams l o = true →
      (listEndpoint db status (some l) (some o)).1 =
        .ok (list_tasks db status l.toNat o.toNat)) ∧
    (∀ id e, get_task db id = .error e → e = .notFound id) ∧
    (∀ id e, (deleteEndpoint db id).1 = .error e → e = .notFound id) := by
  refine ⟨?_, ?_, ?_, ?_, ?_, ?_⟩
  · intro id now raw
    have hiff : (createEndpoint db id now raw).1 = .error .validation ↔
        validateCreate raw = .error .validation := by
      cases h : validateCreate raw with
      | ok c => simp [createEndpoint, h]
      | error e =>
        cases validateCreate_error_kind raw e h
        simp [createEndpoint, h]
    rw [hiff, validateCreate_error_iff, validTitle_false_iff]
    simp only [validDescription_false_iff, statusOk_false_iff]
    rw [or_assoc]
  · intro id raw now
    have hiff : (updateEndpoint db id raw now).1 = .error .validation ↔
        validateUpdate raw = .error .validation := by
      cases h : validateUpdate raw with
      | ok p =>
        cases h2 : update_task db id p now with
        | ok r => simp [updateEndpoint, h, h2]
        | error e =>
          cases update_task_error_kind db id p now e h2
          simp [updateEndpoint, h, h2]
      | error e =>
        cases validateUpdate_error_kind raw e h
        simp [updateEndpoint, h]
    rw [hiff, validateUpdate_error_iff, updateTitleOk_eq]
    simp only [validTitle_false_iff, validDescription_false_iff, statusOk_false_iff]
  · intro status limit offset
    by_cases hv : validListParams (limit.getD 10) (offset.getD 0) = true
    · have hb := (validListParams_true_iff _ _).mp hv
      simp [listEndpoint, hv, hb]
    · have hb : ¬(1 ≤ limit.getD 10 ∧ limit.getD 10 ≤ 100 ∧ 0 ≤ offset.getD 0) :=
        fun hcon => hv ((validListParams_true_iff _ _).mpr hcon)
      simp [listEndpoint, hv, hb]
  · intro status l o hv
    simp [listEndpoint, hv]
  · intro id e h
    unfold get_task at h
    split at h
    · cases h
    · cases h
      rfl
  · intro id e h
    unfold deleteEndpoint at h
    cases h2 : delete_task db id with
    | ok db2 =>
      rw [h2] at h
      cases h
    | error e2 =>
      rw [h2] at h
      cases h
      exact delete_task_error_kind db id _ h2

/-- C5 witness: an empty title is rejected, `limit=0` is rejected rather
than clamped, `limit=100, offset=0` is accepted as given, and a delete of a
missing id fails with not-found, not validation. -/
theorem validation_errors_exact_witness :
    ((createEndpoint [] 1 5 ⟨"", none, none⟩).1 = .error .validation ↔
      (String.length "" = 0 ∨ 200 < String.length "" ∨
        (∃ d, (none : Option String) = some d ∧ 1000 < d.length) ∨
        (∃ s, (none : Option String) = some s ∧ parseTaskStatus s = none))) ∧
    ((listEndpoint [] none (some 0) none).1 = .error .validation ↔
      ¬(1 ≤ (some (0 : Int)).getD 10 ∧ (some (0 : Int)).getD 10 ≤ 100 ∧
        0 ≤ (none : Option Int).getD 0)) ∧
    (listEndpoint [] none (some 100) (some 0)).1 =
      .ok (list_tasks [] none (Int.toNat 100) (Int.toNat 0)) ∧
    ApiError.notFound 7 = .notFound 7 :=
  ⟨(validation_errors_exact []).1 1 5 ⟨"", none, none⟩,
    (validation_errors_exact []).2.2.1 none (some 0) none,
    (validation_errors_exact []).2.2.2.1 none 100 0 rfl,
    (validation_errors_exact []).2.2.2.2.2 7 (.notFound 7) rfl⟩

/-- C6: `Delete` of a stored id removes exactly that record and returns no
content, after which both a `Get` and a second `Delete` of the id fail with
the not-found error; `Delete` of an absent id fails with the not-found
error. -/
theorem delete_task_spec (db : List Task) (id : Nat)
    (hnodup : (idsOf db).Nodup) :
    ((idsOf db).contains id = false →
      delete_task db id = .error (.notFound id)) ∧
    ((idsOf db).contains id = true →
      delete_task db id = .ok (db.filter (fun t => !(t.id == id))) ∧
      (deleteEndpoint db id).1 = .ok () ∧
      (db.filter (fun t => !(t.id == id))).length + 1 = db.length ∧
      (∀ u ∈ db, u.id ≠ id → u ∈ db.filter (fun t => !(t.id == id))) ∧
      (∀ u ∈ db.filter (fun t => !(t.id == id)), u ∈ db ∧ u.id ≠ id) ∧
      get_task (db.filter (fun t => !(t.id == id))) id =
        .error (.notFound id) ∧
      delete_task (db.filter (fun t => !(t.id == id))) id =
        .error (.notFound id)) := by
  have hfilter_not : (idsOf (db.filter (fun t => !(t.id == id)))).contains id = false := by
    rw [contains_idsOf_false_iff]
    intro t ht
    simpa using (List.mem_filter.mp ht).2
  constructor
  · intro hfresh
    unfold delete_task
    rw [if_neg (by simpa using hfresh)]
  · intro hmem
    refine ⟨?_, ?_, length_filter_delete db id hnodup hmem, ?_, ?_, ?_, ?_⟩
    · unfold delete_task
      rw [if_pos (by simp_all)]
    · unfold deleteEndpoint delete_task
      rw [if_pos (by simp_all)]
    · intro u hu hne
      exact List.mem_filter.mpr ⟨hu, by simp [hne]⟩
    · intro u hu
      have h2 := List.mem_filter.mp hu
      exact ⟨h2.1, by simpa using h2.2⟩
    · unfold get_task
      rw [find?_eq_none_of_fresh _ _ hfilter_not]
    · unfold delete_task
      rw [if_neg (by simpa using hfilter_not)]

/-- C6 witness: deleting the only stored task succeeds and the id is gone;
deleting an absent id fails. -/
theorem delete_task_spec_witness :
    (delete_task ([] : List Task) 1 = .error (.notFound 1)) ∧
    delete_task [⟨1, "a", none, .pending, 5, 5⟩] 1 =
      .ok (([⟨1, "a", none, .pending, 5, 5⟩] : List Task).filter
        (fun t => !(t.id == 1))) ∧
    (deleteEndpoint [⟨1, "a", none, .pending, 5, 5⟩] 1).1 = .ok () ∧
    (([⟨1, "a", none, .pending, 5, 5⟩] : List Task).filter
        (fun t => !(t.id == 1))).length + 1 =
      ([⟨1, "a", none, .pending, 5, 5⟩] : List Task).length ∧
    get_task (([⟨1, "a", none, .pending, 5, 5⟩] : List Task).filter
        (fun t => !(t.id == 1))) 1 = .error (.notFound 1) ∧
    delete_task (([⟨1, "a", none, .pending, 5, 5⟩] : List Task).filter
        (fun t => !(t.id == 1))) 1 = .error (.notFound 1) :=
  have h := (delete_task_spec [⟨1, "a", none, .pending, 5, 5⟩] 1
      (by simp [idsOf])).2 rfl
  ⟨(delete_task_spec ([] : List Task) 1 (by simp [idsOf])).1 rfl,
    h.1, h.2.1, h.2.2.1, h.2.2.2.2.2.1, h.2.2.2.2.2.2⟩

/-- C9: a failing operation leaves the store exactly as it was: any error
from the create, update, delete, or list endpoint comes with an unchanged
store (and list never changes the store at all). -/
theorem failed_ops_preserve_store (db : List Task) :
    (∀ id now raw e, (createEndpoint db id now raw).1 = .error e →
      (createEndpoint db id now raw).2 = db) ∧
    (∀ id raw now e, (updateEndpoint db id raw now).1 = .error e →
      (updateEndpoint db id raw now).2 = db) ∧
    (∀ id e, (deleteEndpoint db id).1 = .error e →
      (deleteEndpoint db id).2 = db) ∧
    (∀ status limit offset e,
      (listEndpoint db status limit offset).1 = .error e →
      (listEndpoint db status limit offset).2 = db) ∧
    (∀ status limit offset, (listEndpoint db status limit offset).2 = db) := by
  refine ⟨?_, ?_, ?_, ?_, ?_⟩
  · intro id now raw e h
    cases hv : validateCreate raw with
    | ok c => simp [createEndpoint, hv] at h
    | error e2 => simp [createEndpoint, hv]
  · intro id raw now e h
    cases hv : validateUpdate raw with
    | ok p =>
      cases h2 : update_task db id p now with
      | ok r => simp [updateEndpoint, hv, h2] at h
      | error e2 => simp [updateEndpoint, hv, h2]
    | error e2 => simp [updateEndpoint, hv]
  · intro id e h
    cases h2 : delete_task db id with
    | ok db2 => simp [deleteEndpoint, h2] at h
    | error e2 => simp [deleteEndpoint, h2]
  · intro status limit offset e h
    simp only [listEndpoint]
    split <;> rfl
  · intro status limit offset
    simp only [listEndpoint]
    split <;> rfl

/-- C9 witness: a create rejected by validation, an update and a delete of a
missing id, and a list with an out-of-range limit all leave the store
unchanged. -/
theorem failed_ops_preserve_store_witness :
    (createEndpoint [] 1 5 ⟨"", none, none⟩).2 = ([] : List Task) ∧
    (updateEndpoint [] 1 ⟨none, none, none⟩ 5).2 = ([] : List Task) ∧
    (deleteEndpoint [] 1).2 = ([] : List Task) ∧
    (listEndpoint [] none (some 0) none).2 = ([] : List Task) :=
  ⟨(failed_ops_preserve_store []).1 1 5 ⟨"", none, none⟩ .validation rfl,
    (failed_ops_preserve_store []).2.1 1 ⟨none, none, none⟩ 5 (.notFound 1) rfl,
    (failed_ops_preserve_store []).2.2.1 1 (.notFound 1) rfl,
    (failed_ops_preserve_store []).2.2.2.1 none (some 0) none .validation rfl⟩

/-- C10: omitting `limit` is the same call as `limit=10`, and a successful
`List` with omitted limit returns at most 10 records. -/
theorem list_default_limit (db : List Task) (status : Option TaskStatus)
    (offset : Option Int) :
    listEndpoint db status none offset = listEndpoint db status (some 10) offset ∧
    ∀ r, (listEndpoint db status none offset).1 = .ok r → r.length ≤ 10 := by
  refine ⟨rfl, ?_⟩
  intro r hr
  simp only [listEndpoint] at hr
  split at hr
  · cases hr
    exact List.length_take_le _ _
  · cases hr

/-- C10 witness: listing an 11-task store with omitted limit matches
`limit=10` and returns 10 records. -/
theorem list_default_limit_witness :
    (listEndpoint ((List.range 11).map fun i => ⟨i, "t", none, .pending, i, i⟩)
        none none none =
      listEndpoint ((List.range 11).map fun i => ⟨i, "t", none, .pending, i, i⟩)
        none (some 10) none) ∧
    ((listEndpoint ((List.range 11).map fun i => ⟨i, "t", none, .pending, i, i⟩)
        none none none).1 = .ok
          (list_tasks ((List.range 11).map fun i => ⟨i, "t", none, .pending, i, i⟩)
            none 10 0) →
      (list_tasks ((List.range 11).map fun i => ⟨i, "t", none, .pending, i, i⟩)
          none 10 0).length ≤ 10) :=
  ⟨(list_default_limit _ none none).1,
    fun h => (list_default_limit _ none none).2 _ h⟩

end TaskApi
